import Mathlib

/-!
Shallow embedding of the go-jira HTTP client core: client request building
(`NewClient`, `NewRawRequest`), response handling (`Client.Do`), and the three
authentication transports (`BasicAuthTransport`, `CookieAuthTransport`,
`JWTAuthTransport`) with their request canonicalization, together with proofs
of the specified properties.
-/

namespace Jira

/-- Drops every leading occurrence of the character `c` from a character list,
as Go's `strings.TrimLeft(s, cutset)` does for a one-character cutset. -/
def dropLeadingChar (c : Char) : List Char → List Char
  | [] => []
  | d :: ds => if d = c then dropLeadingChar c ds else d :: ds

/-- Go `strings.TrimLeft(s, cutset)` for a single-character cutset. -/
def trimLeftChar (c : Char) (s : String) : String :=
  String.mk (dropLeadingChar c s.data)

/-- Go `strings.Trim(s, cutset)` for a single-character cutset: removes the
character from both ends of the string. -/
def trimChar (c : Char) (s : String) : String :=
  String.mk ((dropLeadingChar c (dropLeadingChar c s.data).reverse).reverse)

/-- Go `strings.Replace(s, string(c), r, -1)`: replaces every occurrence of the
single character `c` by the string `r`. -/
def replaceChar (c : Char) (r : String) (s : String) : String :=
  String.mk (s.data.flatMap (fun d => if d = c then r.data else [d]))

/-- Go `strings.ToUpper`, restricted to ASCII (the inputs in this code base are
ASCII HTTP method names). -/
def asciiToUpper (s : String) : String :=
  String.mk (s.data.map Char.toUpper)

/-- Characters Go's `url.QueryEscape` leaves unescaped: ASCII alphanumerics and
the unreserved marks `-`, `_`, `.`, `~`. -/
def queryUnescaped (c : Char) : Bool :=
  c.isAlphanum || c = '-' || c = '_' || c = '.' || c = '~'

/-- Uppercase hexadecimal digit, as used by Go's percent-encoding. -/
def hexDigitUpper (n : Nat) : Char :=
  if n < 10 then Char.ofNat (48 + n) else Char.ofNat (55 + n)

/-- Percent-encoding of one character (code points below 256; the inputs of
interest here are ASCII). -/
def percentEncodeChar (c : Char) : List Char :=
  ['%', hexDigitUpper (c.toNat / 16), hexDigitUpper (c.toNat % 16)]

/-- Go `url.QueryEscape` on one character: a space becomes `+`, unreserved
characters stay, everything else is percent-encoded. -/
def queryEscapeChar (c : Char) : List Char :=
  if c = ' ' then ['+']
  else if queryUnescaped c then [c]
  else percentEncodeChar c

/-- Go `url.QueryEscape`. -/
def queryEscape (s : String) : String :=
  String.mk (s.data.flatMap queryEscapeChar)

/-- Lexicographic comparison of character lists by code point; on UTF-8 encoded
data this agrees with Go's byte-wise string comparison used by `sort.Strings`. -/
def charListLe : List Char → List Char → Bool
  | [], _ => true
  | _ :: _, [] => false
  | a :: as, b :: bs => if a = b then charListLe as bs else decide (a < b)

/-- The string order used by Go's `sort.Strings`. -/
def strLe (a b : String) : Prop :=
  charListLe a.data b.data = true

instance : DecidableRel strLe := fun a b => by
  unfold strLe; infer_instance

theorem charListLe_total (as bs : List Char) :
    charListLe as bs = true ∨ charListLe bs as = true := by
  induction as generalizing bs with
  | nil => exact Or.inl rfl
  | cons a as ih =>
    cases bs with
    | nil => exact Or.inr rfl
    | cons b bs =>
      by_cases hab : a = b
      · subst hab
        simpa [charListLe] using ih bs
      · rcases lt_trichotomy a b with h | h | h
        · exact Or.inl (by simp [charListLe, hab, h])
        · exact absurd h hab
        · exact Or.inr (by simp [charListLe, Ne.symm hab, h])

theorem charListLe_trans (as bs cs : List Char) (h1 : charListLe as bs = true)
    (h2 : charListLe bs cs = true) : charListLe as cs = true := by
  induction as generalizing bs cs with
  | nil => rfl
  | cons a as ih =>
    cases bs with
    | nil => simp [charListLe] at h1
    | cons b bs =>
      cases cs with
      | nil => simp [charListLe] at h2
      | cons c cs =>
        by_cases hab : a = b <;> by_cases hbc : b = c
        · subst hab; subst hbc
          simp only [charListLe, if_pos rfl] at h1 h2 ⊢
          exact ih bs cs h1 h2
        · subst hab
          simp only [charListLe, if_pos rfl] at h1
          simp only [charListLe, if_neg hbc, decide_eq_true_eq] at h2
          simp [charListLe, hbc, h2]
        · subst hbc
          simp only [charListLe, if_neg hab, decide_eq_true_eq] at h1
          simp [charListLe, hab, h1]
        · simp only [charListLe, if_neg hab, decide_eq_true_eq] at h1
          simp only [charListLe, if_neg hbc, decide_eq_true_eq] at h2
          have hac : a < c := lt_trans h1 h2
          simp [charListLe, ne_of_lt hac, hac]

theorem charListLe_antisymm (as bs : List Char) (h1 : charListLe as bs = true)
    (h2 : charListLe bs as = true) : as = bs := by
  induction as generalizing bs with
  | nil =>
    cases bs with
    | nil => rfl
    | cons b bs => simp [charListLe] at h2
  | cons a as ih =>
    cases bs with
    | nil => simp [charListLe] at h1
    | cons b bs =>
      by_cases hab : a = b
      · subst hab
        simp only [charListLe, if_pos rfl] at h1 h2
        exact congrArg (a :: ·) (ih bs h1 h2)
      · simp only [charListLe, if_neg hab, decide_eq_true_eq] at h1
        simp only [charListLe, if_neg (Ne.symm hab), decide_eq_true_eq] at h2
        exact absurd h2 (lt_asymm h1)

instance : IsTotal String strLe :=
  ⟨fun a b => charListLe_total a.data b.data⟩

instance : IsTrans String strLe :=
  ⟨fun a b c h1 h2 => charListLe_trans a.data b.data c.data h1 h2⟩

instance : IsAntisymm String strLe :=
  ⟨fun a b h1 h2 => String.ext (charListLe_antisymm a.data b.data h1 h2)⟩

/-- Go `sort.Strings`: for a total order the sorted permutation is unique, so
any sorting algorithm models it. -/
def sortStrings (l : List String) : List String :=
  List.insertionSort strLe l

/-- The distinct query-parameter names in first-appearance order, as the key
set of the `url.Values` map produced by `URL.Query()` (the iteration order of
the Go map is immaterial because the canonical strings are sorted afterwards). -/
def queryKeys : List (String × String) → List String
  | [] => []
  | kv :: rest => kv.1 :: (queryKeys rest).filter (fun k => decide (k ≠ kv.1))

/-- All values recorded for the name `k`, in order of appearance, as stored in
the `url.Values` map built by `URL.Query()`. -/
def queryGet (q : List (String × String)) (k : String) : List String :=
  (q.filter (fun kv => decide (kv.1 = k))).map Prod.snd

/-- One canonical `key=value` query component from the loop body of
`JWTAuthTransport.canonicalizeRequest`: key and joined values percent-encoded,
then `+` replaced by `%20`. -/
def canonicalParam (k : String) (vs : List String) : String :=
  replaceChar '+' "%20" (queryEscape k ++ "=" ++ queryEscape (String.join vs))

/-- The sorted canonical query components built by
`JWTAuthTransport.canonicalizeRequest`: every parameter except `jwt`,
encoded and sorted. -/
def canonicalQueryStrings (q : List (String × String)) : List String :=
  sortStrings (((queryKeys q).filter (fun k => decide (k ≠ "jwt"))).map
    (fun k => canonicalParam k (queryGet q k)))

/-- The canonical path from `JWTAuthTransport.canonicalizeRequest`: trimmed of
leading and trailing slashes, re-prefixed with a single `/`, with literal `&`
encoded as `%26`. -/
def canonicalPath (p : String) : String :=
  "/" ++ replaceChar '&' "%26" (trimChar '/' p)

/-- `JWTAuthTransport.canonicalizeRequest`. A URL is represented by its path
and its parsed query parameters in order of appearance. -/
def canonicalizeRequest (httpMethod : String) (path : String)
    (query : List (String × String)) : String :=
  asciiToUpper httpMethod ++ "&" ++ canonicalPath path ++ "&" ++
    String.intercalate "&" (canonicalQueryStrings query)

/-- `JWTAuthTransport.createQueryStringHash`; `sha256hex` stands for the
hex-encoded SHA-256 digest built from `crypto/sha256` and `encoding/hex`. -/
def createQueryStringHash (sha256hex : String → String) (httpMethod path : String)
    (query : List (String × String)) : String :=
  sha256hex (canonicalizeRequest httpMethod path query)

/-- Written from the spec's canonicalization algorithm, step by step, to be
compared with the source definition `canonicalizeRequest`: (1) uppercase the
method; (2) trim `/` from both ends of the path, re-prefix a single `/`,
percent-encode literal `&` as `%26`; (3) for every parameter except the one
named `jwt`, percent-encode the key and the joined values (multiple values
joined with the empty separator), replace `+` by `%20`, join with `=`;
(4) sort those strings lexicographically; (5) join the three parts with `&`. -/
def canonicalizeRequestSpec (httpMethod path : String)
    (query : List (String × String)) : String :=
  let step1 := asciiToUpper httpMethod
  let step2 := "/" ++ replaceChar '&' "%26" (trimChar '/' path)
  let step3 := ((queryKeys query).filter (fun k => decide (k ≠ "jwt"))).map
    (fun k => replaceChar '+' "%20"
      (queryEscape k ++ "=" ++ queryEscape (String.join (queryGet query k))))
  let step4 := sortStrings step3
  step1 ++ "&" ++ step2 ++ "&" ++ String.intercalate "&" step4

theorem queryGet_cons (kv : String × String) (rest : List (String × String))
    (k : String) :
    queryGet (kv :: rest) k =
      if kv.1 = k then kv.2 :: queryGet rest k else queryGet rest k := by
  by_cases h : kv.1 = k <;> simp [queryGet, List.filter_cons, h]

theorem queryGet_eq_nil_of_not_mem (q : List (String × String)) (k : String)
    (h : k ∉ q.map Prod.fst) : queryGet q k = [] := by
  induction q with
  | nil => rfl
  | cons kv rest ih =>
    simp only [List.map_cons, List.mem_cons, not_or] at h
    rw [queryGet_cons, if_neg (fun hk => h.1 hk.symm)]
    exact ih h.2

theorem mem_queryKeys (q : List (String × String)) (k : String)
    (h : k ∈ queryKeys q) : k ∈ q.map Prod.fst := by
  induction q with
  | nil => simp [queryKeys] at h
  | cons kv rest ih =>
    simp only [queryKeys, List.mem_cons] at h
    rcases h with h | h
    · simp [h]
    · exact List.mem_cons_of_mem _ (ih (List.mem_of_mem_filter h))

theorem queryKeys_cons (kv : String × String) (rest : List (String × String)) :
    queryKeys (kv :: rest) =
      kv.1 :: (queryKeys rest).filter (fun k => decide (k ≠ kv.1)) := rfl

theorem queryKeys_cons_of_nodup (kv : String × String)
    (rest : List (String × String)) (h : kv.1 ∉ rest.map Prod.fst) :
    queryKeys (kv :: rest) = kv.1 :: queryKeys rest := by
  rw [queryKeys_cons]
  congr 1
  rw [List.filter_eq_self]
  intro a ha
  simp only [decide_eq_true_eq]
  exact fun hk => h (hk ▸ mem_queryKeys rest a ha)

theorem canonicalParams_eq_of_nodup (q : List (String × String))
    (hnd : (q.map Prod.fst).Nodup) :
    ((queryKeys q).filter (fun k => decide (k ≠ "jwt"))).map
        (fun k => canonicalParam k (queryGet q k)) =
      (q.filter (fun kv => decide (kv.1 ≠ "jwt"))).map
        (fun kv => canonicalParam kv.1 [kv.2]) := by
  induction q with
  | nil => rfl
  | cons kv rest ih =>
    simp only [List.map_cons, List.nodup_cons] at hnd
    rw [queryKeys_cons_of_nodup kv rest hnd.1]
    have htail :
        ((queryKeys rest).filter (fun k => decide (k ≠ "jwt"))).map
            (fun k => canonicalParam k (queryGet (kv :: rest) k)) =
          ((queryKeys rest).filter (fun k => decide (k ≠ "jwt"))).map
            (fun k => canonicalParam k (queryGet rest k)) := by
      apply List.map_congr_left
      intro a ha
      have hmem : a ∈ rest.map Prod.fst :=
        mem_queryKeys rest a (List.mem_of_mem_filter ha)
      have hne : kv.1 ≠ a := fun hk => hnd.1 (hk ▸ hmem)
      rw [queryGet_cons, if_neg hne]
    have hhead : queryGet (kv :: rest) kv.1 = [kv.2] := by
      rw [queryGet_cons, if_pos rfl, queryGet_eq_nil_of_not_mem rest kv.1 hnd.1]
    by_cases hj : kv.1 = "jwt"
    · rw [List.filter_cons_of_neg (by simp [hj]),
        List.filter_cons_of_neg (by simp [hj]), htail, ih hnd.2]
    · rw [List.filter_cons_of_pos (by simp [hj]),
        List.filter_cons_of_pos (by simp [hj]), List.map_cons, List.map_cons,
        htail, ih hnd.2, hhead]

theorem canonicalQueryStrings_perm_invariant (q1 q2 : List (String × String))
    (hperm : q1.Perm q2) (hnd : (q1.map Prod.fst).Nodup) :
    canonicalQueryStrings q1 = canonicalQueryStrings q2 := by
  have hnd2 : (q2.map Prod.fst).Nodup := ((hperm.map Prod.fst).nodup_iff).mp hnd
  have hp :
      ((q1.filter (fun kv => decide (kv.1 ≠ "jwt"))).map
          (fun kv => canonicalParam kv.1 [kv.2])).Perm
        ((q2.filter (fun kv => decide (kv.1 ≠ "jwt"))).map
          (fun kv => canonicalParam kv.1 [kv.2])) :=
    (hperm.filter _).map _
  unfold canonicalQueryStrings
  rw [canonicalParams_eq_of_nodup q1 hnd, canonicalParams_eq_of_nodup q2 hnd2]
  have hs1 := List.sorted_insertionSort strLe
    ((q1.filter (fun kv => decide (kv.1 ≠ "jwt"))).map
      (fun kv => canonicalParam kv.1 [kv.2]))
  have hs2 := List.sorted_insertionSort strLe
    ((q2.filter (fun kv => decide (kv.1 ≠ "jwt"))).map
      (fun kv => canonicalParam kv.1 [kv.2]))
  exact List.eq_of_perm_of_sorted
    (((List.perm_insertionSort strLe _).trans hp).trans
      (List.perm_insertionSort strLe _).symm) hs1 hs2

/-- C3: canonicalization of a request produces the uppercased method, the
trimmed and `&`-escaped path re-prefixed with `/`, and the sorted
percent-encoded query parameters excluding `jwt`, joined with `&`; with no
query parameters the result has a trailing empty segment, and the concrete
example from the spec evaluates as stated. -/
theorem C3_canonicalization_matches_spec :
    (∀ m p q, canonicalizeRequest m p q = canonicalizeRequestSpec m p q) ∧
    (∀ m p, canonicalizeRequest m p [] =
      asciiToUpper m ++ "&" ++ canonicalPath p ++ "&") ∧
    canonicalizeRequest "GET" "/a/b/" [("z", "1"), ("a", "2")] =
      "GET&/a/b&a=2&z=1" := by
  refine ⟨fun m p q => rfl, fun m p => ?_, by decide⟩
  show asciiToUpper m ++ "&" ++ canonicalPath p ++ "&" ++
      String.intercalate "&" (canonicalQueryStrings []) =
    asciiToUpper m ++ "&" ++ canonicalPath p ++ "&"
  have h : canonicalQueryStrings [] = [] := rfl
  rw [h]
  show asciiToUpper m ++ "&" ++ canonicalPath p ++ "&" ++ "" = _
  rw [String.append_empty]

/-- C4 counterexample: the two query lists hold the same parameters (`a=1` and
`a=2`) in opposite order of appearance, yet the canonical strings differ
(`GET&/p&a=12` versus `GET&/p&a=21`), because values of a repeated name are
joined in order of appearance; so the output is not independent of the
original parameter order. -/
theorem C4_counterexample :
    ([("a", "1"), ("a", "2")] : List (String × String)).Perm
        [("a", "2"), ("a", "1")] ∧
      canonicalizeRequest "GET" "/p" [("a", "1"), ("a", "2")] ≠
        canonicalizeRequest "GET" "/p" [("a", "2"), ("a", "1")] :=
  ⟨List.Perm.swap _ _ _, by decide⟩

/-- C4 (amended): canonicalization (and hence `createQueryStringHash`) is a
pure function, so calling it twice on the same inputs yields identical output;
and whenever each parameter name appears at most once, the output is
independent of the order in which the parameters appear in the URL (an order
change of a repeated name's values changes the output, as the counterexample
shows). -/
theorem C4_canonicalization_deterministic_order_invariant
    (m p : String) (q1 q2 : List (String × String)) (sha : String → String)
    (hperm : q1.Perm q2) (hnd : (q1.map Prod.fst).Nodup) :
    canonicalizeRequest m p q1 = canonicalizeRequest m p q1 ∧
    createQueryStringHash sha m p q1 = createQueryStringHash sha m p q1 ∧
    canonicalizeRequest m p q1 = canonicalizeRequest m p q2 ∧
    createQueryStringHash sha m p q1 = createQueryStringHash sha m p q2 := by
  have hc : canonicalizeRequest m p q1 = canonicalizeRequest m p q2 := by
    unfold canonicalizeRequest
    rw [canonicalQueryStrings_perm_invariant q1 q2 hperm hnd]
  exact ⟨rfl, rfl, hc, by unfold createQueryStringHash; rw [hc]⟩

/-- C4 witness: the amended theorem applied to two concrete parameter lists
with distinct names in swapped order. -/
theorem C4_witness :
    canonicalizeRequest "get" "/x/" [("b", "2"), ("a", "1")] =
        canonicalizeRequest "get" "/x/" [("b", "2"), ("a", "1")] ∧
      createQueryStringHash id "get" "/x/" [("b", "2"), ("a", "1")] =
        createQueryStringHash id "get" "/x/" [("b", "2"), ("a", "1")] ∧
      canonicalizeRequest "get" "/x/" [("b", "2"), ("a", "1")] =
        canonicalizeRequest "get" "/x/" [("a", "1"), ("b", "2")] ∧
      createQueryStringHash id "get" "/x/" [("b", "2"), ("a", "1")] =
        createQueryStringHash id "get" "/x/" [("a", "1"), ("b", "2")] :=
  C4_canonicalization_deterministic_order_invariant "get" "/x/"
    [("b", "2"), ("a", "1")] [("a", "1"), ("b", "2")] id
    (List.Perm.swap _ _ _) (by decide)

/-- The error outcomes of `Client.Do`, one per `return` site. -/
inductive DoError where
  | httpError (msg : String)
  | noResponse
  | bodyReadError (msg : String)
  | parseError (msg : String)
  | jiraRequestError (status : Nat) (body : String)
  deriving DecidableEq, Repr

/-- Modelled from the spec: `NewJiraRequestError` is called in `Client.Do` but
its definition is not among the available sources; the spec describes its
result as "a structured API error carrying the status and parsed/raw body", so
it is modelled as the error value carrying the response's status code and raw
body bytes. -/
def NewJiraRequestError (status : Nat) (body : String) : DoError :=
  DoError.jiraRequestError status body

/-- An HTTP response as `Client.Do` receives it: a status code and a body
stream whose full read (`ioutil.ReadAll`) either fails or yields the body
bytes. -/
structure HttpResponse where
  statusCode : Nat
  bodyStream : Except String String
  deriving Repr

/-- `Client.Do`. The input is the pair returned by the underlying HTTP
client's `Do` (a possibly-nil response and a possibly-nil error); `parse`
stands for `fastjson.Parser.ParseBytes`. The output mirrors the Go triple
`(*fastjson.Value, *http.Response, error)`; the response handed back carries
the body buffer as reset before parsing. -/
def clientDo {V : Type} (parse : String → Except String V)
    (clientResult : Option HttpResponse × Option String) :
    Option V × Option HttpResponse × Option DoError :=
  match clientResult.2 with
  | some e => (none, clientResult.1, some (DoError.httpError e))
  | none =>
    match clientResult.1 with
    | none => (none, none, some DoError.noResponse)
    | some resp =>
      match resp.bodyStream with
      | Except.error e => (none, some resp, some (DoError.bodyReadError e))
      | Except.ok body =>
        let resp2 : HttpResponse :=
          { statusCode := resp.statusCode, bodyStream := Except.ok body }
        match parse body with
        | Except.error e => (none, some resp2, some (DoError.parseError e))
        | Except.ok value =>
          if ¬ (200 ≤ resp.statusCode ∧ resp.statusCode ≤ 299) then
            (some value, some resp2, some (NewJiraRequestError resp.statusCode body))
          else
            (some value, some resp2, none)

/-- The value content of an `*http.Request` that the transports and the client
read and write: method, URL path, parsed query parameters in order of
appearance, headers, and cookies attached via `AddCookie` in order. -/
structure Request where
  method : String
  path : String
  query : List (String × String)
  header : List (String × List String)
  cookies : List (String × String)
  deriving DecidableEq, Repr

/-- Go `http.Header.Set`: replaces any existing values of the key with the
single given value. -/
def headerSet (h : List (String × List String)) (k v : String) :
    List (String × List String) :=
  (k, [v]) :: h.filter (fun kv => decide (kv.1 ≠ k))

/-- `cloneRequest` at the level of request values: the clone carries the same
observable content (the aliasing behaviour of the header deep copy is modelled
separately on `Heap`). -/
def cloneRequestValue (r : Request) : Request := r

/-- A sample request used to instantiate theorems with hypotheses. -/
def sampleRequest : Request :=
  { method := "GET", path := "/a/b/", query := [("z", "1"), ("a", "2")],
    header := [], cookies := [] }

/-- A JWT claims set as built by `JWTAuthTransport.RoundTrip` in
`jwt.MapClaims{"iss": ..., "iat": ..., "exp": ..., "qsh": ...}`. -/
structure JwtClaims where
  iss : String
  iat : Int
  exp : Int
  qsh : String
  deriving DecidableEq, Repr

/-- The claims minted by `JWTAuthTransport.RoundTrip`: `now` is the Unix time
read by `time.Now()` during the call (both reads in the call body are modelled
with the same clock value), the expiry duration is 59 seconds, and `qsh` is the
query-string hash of the request's method and URL. -/
def mintedClaims (sha256hex : String → String) (issuer : String) (now : Int)
    (req : Request) : JwtClaims :=
  { iss := issuer, iat := now, exp := now + 59,
    qsh := createQueryStringHash sha256hex req.method req.path req.query }

/-- `JWTAuthTransport.RoundTrip`, returning the request handed to the
underlying transport (an `Except.error` result means no request is sent at
all). `sign` stands for `token.SignedString(t.Secret)` — jwt-go's serialization
and HMAC-SHA256 signing of the claims with the transport's secret — and
`sha256hex` for the digest function of `createQueryStringHash`. -/
def jwtRoundTrip (sign : JwtClaims → Except String String)
    (sha256hex : String → String) (issuer : String) (now : Int)
    (req : Request) : Except String Request :=
  let req2 := cloneRequestValue req
  match sign (mintedClaims sha256hex issuer now req2) with
  | Except.error e => Except.error ("jwtAuth: error signing JWT: " ++ e)
  | Except.ok jwtStr =>
    Except.ok { req2 with
      header := headerSet req2.header "Authorization" ("JWT " ++ jwtStr) }

/-- The state of a `CookieAuthTransport`: `SessionObject` is either nil
(`none`) or a cookie slice, possibly empty (`some`). Cookies are modelled as
name-value pairs. -/
structure CookieAuthState where
  sessionObject : Option (List (String × String))
  deriving DecidableEq, Repr

/-- The cookie-attachment loop of `CookieAuthTransport.RoundTrip`: every
session cookie except those with an empty value is added to the clone via
`AddCookie`. -/
def attachSessionCookies (cookies : List (String × String)) (req : Request) :
    Request :=
  { req with cookies := req.cookies ++ cookies.filter (fun c => decide (c.2 ≠ "")) }

/-- `CookieAuthTransport.setSessionObject`: `login` stands for the outcome of
building the authentication request (`buildAuthRequest`) and executing it with
the 60-second-timeout client; on success the response's cookie slice —
non-nil but possibly empty — becomes the cached session object, with no check
that any cookie was returned. -/
def setSessionObject (login : Except String (List (String × String))) :
    Except String CookieAuthState :=
  match login with
  | Except.error e => Except.error e
  | Except.ok cookies => Except.ok { sessionObject := some cookies }

/-- `CookieAuthTransport.RoundTrip`, returning the updated transport state and
the request handed to the underlying transport (an `Except.error` result means
no request is sent). The login exchange runs only when the cached session
object is nil. -/
def cookieRoundTrip (login : Except String (List (String × String)))
    (st : CookieAuthState) (req : Request) :
    Except String (CookieAuthState × Request) :=
  match st.sessionObject with
  | none =>
    match setSessionObject login with
    | Except.error e =>
      Except.error ("cookieauth: no session object has been set: " ++ e)
    | Except.ok st2 =>
      Except.ok (st2, attachSessionCookies (st2.sessionObject.getD [])
        (cloneRequestValue req))
  | some cookies =>
    Except.ok (st, attachSessionCookies cookies (cloneRequestValue req))

/-- The client-level authentication modes held by
`AuthenticationService.authType`. -/
inductive AuthType where
  | noAuth
  | basic
  | session
  deriving DecidableEq, Repr

/-- The cookies attached by the session branch of `Client.NewRawRequest`: with
client-level session auth and a non-nil cached session, every session cookie
is added via `AddCookie` — the loop has no empty-value filter. -/
def newRawRequestCookies (authType : AuthType)
    (session : Option (List (String × String))) : List (String × String) :=
  match authType, session with
  | AuthType.session, some cookies => cookies
  | _, _ => []

/-- C10: when the underlying HTTP client's `Do` returns a nil response
together with a nil error, `Client.Do` returns the "no response returned"
error and no parsed JSON value, rather than proceeding to read the nil
response. -/
theorem C10_nil_response {V : Type} (parse : String → Except String V) :
    clientDo parse (none, none) = (none, none, some DoError.noResponse) := rfl

/-- C1 counterexample: a status-500 response whose body `oops` is not valid
JSON. `Client.Do` returns the parse error — not a structured API error
carrying the status — because the parse failure returns before the status
check is reached; no `jiraRequestError` value equals the returned error. -/
theorem C1_counterexample :
    clientDo (fun _ => (Except.error "invalid json" : Except String Unit))
        (some { statusCode := 500, bodyStream := Except.ok "oops" }, none) =
      (none, some { statusCode := 500, bodyStream := Except.ok "oops" },
        some (DoError.parseError "invalid json")) ∧
    ∀ s b, (DoError.parseError "invalid json" : DoError) ≠
      DoError.jiraRequestError s b :=
  ⟨rfl, fun _ _ h => DoError.noConfusion h⟩

/-- C1 (amended): for a received response (non-nil, no transport error) whose
body reads fully, a status outside [200,299] always yields an error, and the
response handed back carries the body reset so it is readable again; the error
is the structured API error carrying status and body exactly when the body
parses as JSON — when parsing fails, the parse error is returned instead, with
the status-based error pre-empted. -/
theorem C1_do_status_error {V : Type} (parse : String → Except String V)
    (status : Nat) (body : String)
    (hs : ¬ (200 ≤ status ∧ status ≤ 299)) :
    (∃ e, (clientDo parse
      (some { statusCode := status, bodyStream := Except.ok body }, none)).2.2 =
        some e) ∧
    (clientDo parse
      (some { statusCode := status, bodyStream := Except.ok body }, none)).2.1 =
        some { statusCode := status, bodyStream := Except.ok body } ∧
    (∀ v, parse body = Except.ok v →
      clientDo parse
        (some { statusCode := status, bodyStream := Except.ok body }, none) =
        (some v, some { statusCode := status, bodyStream := Except.ok body },
          some (DoError.jiraRequestError status body))) ∧
    (∀ e, parse body = Except.error e →
      clientDo parse
        (some { statusCode := status, bodyStream := Except.ok body }, none) =
        (none, some { statusCode := status, bodyStream := Except.ok body },
          some (DoError.parseError e))) := by
  cases hp : parse body with
  | error e =>
    refine ⟨⟨DoError.parseError e, ?_⟩, ?_, ?_, ?_⟩ <;>
      simp [clientDo, hp, NewJiraRequestError, hs]
  | ok v =>
    refine ⟨⟨DoError.jiraRequestError status body, ?_⟩, ?_, ?_, ?_⟩ <;>
      simp [clientDo, hp, NewJiraRequestError, hs]

/-- C1 witness: the amended theorem at status 500 with the JSON body `{}` and a
parser accepting exactly that body. -/
theorem C1_witness :
    (∃ e, (clientDo (fun s => if s = "\x7b\x7d" then Except.ok () else
        Except.error "bad")
      (some { statusCode := 500, bodyStream := Except.ok "\x7b\x7d" },
        none)).2.2 = some e) ∧
    (clientDo (fun s => if s = "\x7b\x7d" then Except.ok () else
        Except.error "bad")
      (some { statusCode := 500, bodyStream := Except.ok "\x7b\x7d" },
        none)).2.1 =
      some { statusCode := 500, bodyStream := Except.ok "\x7b\x7d" } ∧
    (∀ v, (fun s => if s = "\x7b\x7d" then Except.ok () else
        Except.error "bad") "\x7b\x7d" = Except.ok v →
      clientDo (fun s => if s = "\x7b\x7d" then Except.ok () else
          Except.error "bad")
        (some { statusCode := 500, bodyStream := Except.ok "\x7b\x7d" },
          none) =
        (some v,
          some { statusCode := 500, bodyStream := Except.ok "\x7b\x7d" },
          some (DoError.jiraRequestError 500 "\x7b\x7d"))) ∧
    (∀ e, (fun s => if s = "\x7b\x7d" then Except.ok () else
        Except.error "bad") "\x7b\x7d" = Except.error e →
      clientDo (fun s => if s = "\x7b\x7d" then Except.ok () else
          Except.error "bad")
        (some { statusCode := 500, bodyStream := Except.ok "\x7b\x7d" },
          none) =
        (none,
          some { statusCode := 500, bodyStream := Except.ok "\x7b\x7d" },
          some (DoError.parseError e))) :=
  C1_do_status_error
    (fun s => if s = "\x7b\x7d" then Except.ok () else Except.error "bad")
    500 "\x7b\x7d" (by decide)

/-- C2: every `JWTAuthTransport.RoundTrip` call mints its token afresh from the
claims {iss = issuer, iat = now, exp = now + 59, qsh = hex SHA-256 of the
canonical request string} signed over the shared secret, and attaches it to
the cloned request as an `Authorization: JWT <token>` header; claims minted at
different times differ, so no token is cached or reused across calls. -/
theorem C2_jwt_fresh_token (sign : JwtClaims → Except String String)
    (sha256hex : String → String) (issuer : String) (now : Int) (req : Request)
    (tok : String)
    (hsign : sign (mintedClaims sha256hex issuer now req) = Except.ok tok) :
    mintedClaims sha256hex issuer now req =
      { iss := issuer, iat := now, exp := now + 59,
        qsh := sha256hex (canonicalizeRequest req.method req.path req.query) } ∧
    jwtRoundTrip sign sha256hex issuer now req =
      Except.ok { req with
        header := headerSet req.header "Authorization" ("JWT " ++ tok) } ∧
    (∀ now1 now2 : Int, now1 ≠ now2 →
      mintedClaims sha256hex issuer now1 req ≠
        mintedClaims sha256hex issuer now2 req) := by
  refine ⟨rfl, ?_, ?_⟩
  · simp only [jwtRoundTrip, cloneRequestValue]
    rw [hsign]
  · intro now1 now2 hne heq
    exact hne (congrArg JwtClaims.iat heq)

/-- C2 witness: the theorem at a concrete signer, issuer, time and request. -/
theorem C2_witness :
    mintedClaims id "addon" 100 sampleRequest =
      { iss := "addon", iat := 100, exp := 100 + 59,
        qsh := id (canonicalizeRequest sampleRequest.method sampleRequest.path
          sampleRequest.query) } ∧
    jwtRoundTrip (fun _ => Except.ok "token0") id "addon" 100 sampleRequest =
      Except.ok { sampleRequest with
        header := headerSet sampleRequest.header "Authorization"
          ("JWT " ++ "token0") } ∧
    (∀ now1 now2 : Int, now1 ≠ now2 →
      mintedClaims id "addon" now1 sampleRequest ≠
        mintedClaims id "addon" now2 sampleRequest) :=
  C2_jwt_fresh_token (fun _ => Except.ok "token0") id "addon" 100
    sampleRequest "token0" rfl

/-- C5 counterexample: with client-level session auth and a cached session
holding the cookie `sid` with empty value, `NewRawRequest` attaches that
empty-value cookie to the outbound request. -/
theorem C5_counterexample :
    ("sid", "") ∈ newRawRequestCookies AuthType.session (some [("sid", "")]) ∧
    ("sid", "").2 = "" := by
  exact ⟨List.mem_singleton.mpr rfl, rfl⟩

/-- C5 (amended): `CookieAuthTransport.RoundTrip` never attaches an
empty-value cookie and attaches every cached cookie with a non-empty value;
the client-level session path in `NewRawRequest`, by contrast, attaches every
cached session cookie, empty-valued ones included. -/
theorem C5_cookie_attachment (login : Except String (List (String × String)))
    (cookies : List (String × String)) (req : Request) :
    cookieRoundTrip login { sessionObject := some cookies } req =
      Except.ok ({ sessionObject := some cookies },
        { req with cookies :=
          req.cookies ++ cookies.filter (fun c => decide (c.2 ≠ "")) }) ∧
    (∀ c ∈ cookies.filter (fun c => decide (c.2 ≠ "")), c.2 ≠ "") ∧
    (∀ c ∈ cookies, c.2 ≠ "" →
      c ∈ cookies.filter (fun c => decide (c.2 ≠ ""))) ∧
    newRawRequestCookies AuthType.session (some cookies) = cookies := by
  refine ⟨rfl, ?_, ?_, rfl⟩
  · intro c hc
    exact of_decide_eq_true (List.mem_filter.mp hc).2
  · intro c hc hne
    exact List.mem_filter.mpr ⟨hc, decide_eq_true hne⟩

/-- C6 counterexample: a login exchange that succeeds but yields no cookies
does not produce an error — the empty cookie slice is cached as the session —
and a later call reuses that empty session without erroring even though a new
login would fail. -/
theorem C6_counterexample :
    cookieRoundTrip (Except.ok []) { sessionObject := none } sampleRequest =
      Except.ok ({ sessionObject := some [] }, sampleRequest) ∧
    cookieRoundTrip (Except.error "login refused")
        { sessionObject := some [] } sampleRequest =
      Except.ok ({ sessionObject := some [] }, sampleRequest) := by
  refine ⟨?_, ?_⟩ <;>
    simp [cookieRoundTrip, setSessionObject, attachSessionCookies,
      cloneRequestValue, sampleRequest]

/-- C6 (amended): `CookieAuthTransport.RoundTrip` fails (with the cookieauth
authentication error) exactly when no session object is cached and the login
exchange itself fails; a successful login that yields no usable cookies is not
an error — the empty cookie slice is cached as the session and reused. -/
theorem C6_auth_error_iff_login_failure
    (login : Except String (List (String × String)))
    (st : CookieAuthState) (req : Request) :
    (∃ e, cookieRoundTrip login st req = Except.error e) ↔
      (st.sessionObject = none ∧ ∃ e, login = Except.error e) := by
  cases st with
  | mk sessionObject =>
    cases sessionObject with
    | none =>
      cases login with
      | error e =>
        simp [cookieRoundTrip, setSessionObject]
      | ok cookies =>
        simp [cookieRoundTrip, setSessionObject]
    | some cookies =>
      simp [cookieRoundTrip]

/-- C7: a signing failure in `JWTAuthTransport.RoundTrip`, and a login-exchange
failure in `CookieAuthTransport.RoundTrip`, each return an error and hand no
request — in particular not the original unsigned or unauthenticated one — to
the underlying transport. -/
theorem C7_failure_blocks_send (sign : JwtClaims → Except String String)
    (sha256hex : String → String) (issuer : String) (now : Int)
    (req : Request) (login : Except String (List (String × String)))
    (st : CookieAuthState) (e1 e2 : String)
    (hsign : sign (mintedClaims sha256hex issuer now req) = Except.error e1)
    (hst : st.sessionObject = none) (hlogin : login = Except.error e2) :
    jwtRoundTrip sign sha256hex issuer now req =
      Except.error ("jwtAuth: error signing JWT: " ++ e1) ∧
    (∀ r, jwtRoundTrip sign sha256hex issuer now req ≠ Except.ok r) ∧
    cookieRoundTrip login st req =
      Except.error ("cookieauth: no session object has been set: " ++ e2) ∧
    (∀ s, cookieRoundTrip login st req ≠ Except.ok s) := by
  have hj : jwtRoundTrip sign sha256hex issuer now req =
      Except.error ("jwtAuth: error signing JWT: " ++ e1) := by
    simp only [jwtRoundTrip, cloneRequestValue]
    rw [hsign]
  have hc : cookieRoundTrip login st req =
      Except.error ("cookieauth: no session object has been set: " ++ e2) := by
    cases st with
    | mk sessionObject =>
      cases hst
      simp [cookieRoundTrip, setSessionObject, hlogin]
  exact ⟨hj, fun r h => by rw [hj] at h; exact Except.noConfusion h,
    hc, fun s h => by rw [hc] at h; exact Except.noConfusion h⟩

/-- C7 witness: the theorem at a concrete failing signer and failing login. -/
theorem C7_witness :
    jwtRoundTrip (fun _ => Except.error "bad key") id "addon" 100
        sampleRequest =
      Except.error ("jwtAuth: error signing JWT: " ++ "bad key") ∧
    (∀ r, jwtRoundTrip (fun _ => Except.error "bad key") id "addon" 100
        sampleRequest ≠ Except.ok r) ∧
    cookieRoundTrip (Except.error "connection refused")
        { sessionObject := none } sampleRequest =
      Except.error ("cookieauth: no session object has been set: " ++
        "connection refused") ∧
    (∀ s, cookieRoundTrip (Except.error "connection refused")
        { sessionObject := none } sampleRequest ≠ Except.ok s) :=
  C7_failure_blocks_send (fun _ => Except.error "bad key") id "addon" 100
    sampleRequest (Except.error "connection refused")
    { sessionObject := none } "bad key" "connection refused" rfl rfl rfl

/-- A heap for modelling the aliasing behaviour of `cloneRequest`: header-map
cells map an address to a list of (name, slice-address) entries — the
`http.Header` map — and slice cells map an address to a `[]string` of header
values; `next` is the allocation frontier, so every live address is below it
and fresh cells are allocated at and above it. -/
structure Heap where
  hmaps : Nat → List (String × Nat)
  slices : Nat → List String
  next : Nat

/-- An `*http.Request` at the aliasing level: `headerRef` is the reference to
the `Header` map cell; the remaining fields, which `cloneRequest` copies
shallowly, are represented by `methodF`, `urlF` and `bodyF`. -/
structure HRequest where
  methodF : String
  urlF : String
  bodyF : String
  headerRef : Nat

/-- Overwrites one slice cell — an in-place mutation of one header value list,
e.g. `r.Header["k"][0] = v` or a write through a retained slice. -/
def writeSlice (h : Heap) (a : Nat) (v : List String) : Heap :=
  { h with slices := fun n => if n = a then v else h.slices n }

/-- Overwrites one header-map cell — a mutation of the header map itself,
e.g. `r.Header.Set(k, v)` or `delete(r.Header, k)`. -/
def writeHmap (h : Heap) (a : Nat) (v : List (String × Nat)) : Heap :=
  { h with hmaps := fun n => if n = a then v else h.hmaps n }

/-- The observable headers of a request: its header-map entries with every
value slice dereferenced. -/
def resolveHeaders (h : Heap) (r : HRequest) : List (String × List String) :=
  (h.hmaps r.headerRef).map (fun e => (e.1, h.slices e.2))

/-- A request is well formed in a heap when its header reference and every
slice reference in its header-map cell lie below the allocation frontier. -/
def wfRequest (h : Heap) (r : HRequest) : Prop :=
  r.headerRef < h.next ∧ ∀ e ∈ h.hmaps r.headerRef, e.2 < h.next

/-- Allocation of one fresh slice cell holding `v`: the cell at the frontier
is written and the frontier advances. -/
def allocSlice (h : Heap) (v : List String) : Heap :=
  { hmaps := h.hmaps,
    slices := fun n => if n = h.next then v else h.slices n,
    next := h.next + 1 }

/-- The copying loop of `cloneRequest`:
`r2.Header[k] = append([]string(nil), s...)` — each value slice is copied into
a freshly allocated slice cell. Returns the heap after the copies and the new
entry list. -/
def copyHeaderSlices (h : Heap) : List (String × Nat) → Heap × List (String × Nat)
  | [] => (h, [])
  | e :: es =>
    let res := copyHeaderSlices (allocSlice h (h.slices e.2)) es
    (res.1, (e.1, h.next) :: res.2)

/-- `cloneRequest`: a shallow copy of the request struct, then a deep copy of
the `Header` map — a freshly allocated map cell whose entries point at freshly
allocated copies of each value slice. Returns the new heap and the clone. -/
def cloneRequest (h : Heap) (r : HRequest) : Heap × HRequest :=
  let res := copyHeaderSlices h (h.hmaps r.headerRef)
  ({ hmaps := fun n => if n = res.1.next then res.2 else res.1.hmaps n,
     slices := res.1.slices,
     next := res.1.next + 1 },
   { r with headerRef := res.1.next })

theorem copyHeaderSlices_next (es : List (String × Nat)) :
    ∀ h : Heap, (copyHeaderSlices h es).1.next = h.next + es.length := by
  induction es with
  | nil => intro h; rfl
  | cons e es ih =>
    intro h
    show (copyHeaderSlices (allocSlice h (h.slices e.2)) es).1.next = _
    rw [ih]
    show (allocSlice h (h.slices e.2)).next + es.length = _
    simp only [allocSlice, List.length_cons]
    omega

theorem copyHeaderSlices_slices_lt (es : List (String × Nat)) :
    ∀ (h : Heap) (n : Nat), n < h.next →
      (copyHeaderSlices h es).1.slices n = h.slices n := by
  induction es with
  | nil => intro h n _; rfl
  | cons e es ih =>
    intro h n hn
    show (copyHeaderSlices (allocSlice h (h.slices e.2)) es).1.slices n = _
    rw [ih (allocSlice h (h.slices e.2)) n (Nat.lt_succ_of_lt hn)]
    show (if n = h.next then _ else h.slices n) = h.slices n
    rw [if_neg (Nat.ne_of_lt hn)]

theorem copyHeaderSlices_hmaps (es : List (String × Nat)) :
    ∀ h : Heap, (copyHeaderSlices h es).1.hmaps = h.hmaps := by
  induction es with
  | nil => intro h; rfl
  | cons e es ih =>
    intro h
    show (copyHeaderSlices (allocSlice h (h.slices e.2)) es).1.hmaps = _
    rw [ih]
    rfl

theorem copyHeaderSlices_entry_refs (es : List (String × Nat)) :
    ∀ h : Heap, ∀ e ∈ (copyHeaderSlices h es).2,
      h.next ≤ e.2 ∧ e.2 < h.next + es.length := by
  induction es with
  | nil =>
    intro h e he
    simp [copyHeaderSlices] at he
  | cons e0 es ih =>
    intro h e he
    have hcons : (copyHeaderSlices h (e0 :: es)).2 =
        (e0.1, h.next) :: (copyHeaderSlices (allocSlice h (h.slices e0.2)) es).2 :=
      rfl
    rw [hcons] at he
    rcases List.mem_cons.mp he with he | he
    · subst he
      refine ⟨Nat.le_refl _, ?_⟩
      simp only [List.length_cons]
      omega
    · obtain ⟨h1le, h1lt⟩ := ih (allocSlice h (h.slices e0.2)) e he
      have hnext : (allocSlice h (h.slices e0.2)).next = h.next + 1 := rfl
      rw [hnext] at h1le h1lt
      simp only [List.length_cons]
      omega

theorem copyHeaderSlices_resolved (es : List (String × Nat)) :
    ∀ h : Heap, (∀ e ∈ es, e.2 < h.next) →
      (copyHeaderSlices h es).2.map
          (fun e => (e.1, (copyHeaderSlices h es).1.slices e.2)) =
        es.map (fun e => (e.1, h.slices e.2)) := by
  induction es with
  | nil => intro h _; rfl
  | cons e0 es ih =>
    intro h hes
    have hcons1 : (copyHeaderSlices h (e0 :: es)).1 =
        (copyHeaderSlices (allocSlice h (h.slices e0.2)) es).1 := rfl
    have hcons2 : (copyHeaderSlices h (e0 :: es)).2 =
        (e0.1, h.next) :: (copyHeaderSlices (allocSlice h (h.slices e0.2)) es).2 :=
      rfl
    rw [hcons1, hcons2, List.map_cons, List.map_cons]
    have hhead : (copyHeaderSlices (allocSlice h (h.slices e0.2)) es).1.slices
        h.next = h.slices e0.2 := by
      rw [copyHeaderSlices_slices_lt es (allocSlice h (h.slices e0.2)) h.next
        (Nat.lt_succ_self h.next)]
      show (if h.next = h.next then h.slices e0.2 else _) = _
      rw [if_pos rfl]
    have htail := ih (allocSlice h (h.slices e0.2))
      (fun e he => Nat.lt_succ_of_lt (hes e (List.mem_cons_of_mem _ he)))
    rw [htail]
    congr 1
    · exact congrArg (Prod.mk e0.1) hhead
    · refine List.map_congr_left ?_
      intro e he
      refine congrArg (Prod.mk e.1) ?_
      show (if e.2 = h.next then _ else h.slices e.2) = h.slices e.2
      rw [if_neg (Nat.ne_of_lt (hes e (List.mem_cons_of_mem _ he)))]

/-- The address at which `cloneRequest` allocates the clone's header map. -/
def cloneAddr (h : Heap) (r : HRequest) : Nat :=
  (copyHeaderSlices h (h.hmaps r.headerRef)).1.next

theorem cloneRequest_snd_headerRef (h : Heap) (r : HRequest) :
    (cloneRequest h r).2.headerRef = cloneAddr h r := rfl

theorem cloneRequest_fst_slices (h : Heap) (r : HRequest) :
    (cloneRequest h r).1.slices =
      (copyHeaderSlices h (h.hmaps r.headerRef)).1.slices := rfl

theorem cloneRequest_fst_hmaps (h : Heap) (r : HRequest) (n : Nat) :
    (cloneRequest h r).1.hmaps n =
      if n = cloneAddr h r then (copyHeaderSlices h (h.hmaps r.headerRef)).2
      else h.hmaps n := by
  show (if n = cloneAddr h r then _
    else (copyHeaderSlices h (h.hmaps r.headerRef)).1.hmaps n) = _
  rw [copyHeaderSlices_hmaps]

theorem cloneAddr_ge (h : Heap) (r : HRequest) : h.next ≤ cloneAddr h r := by
  unfold cloneAddr
  rw [copyHeaderSlices_next]
  omega

/-- C8: `cloneRequest` preserves the non-header fields, allocates a fresh
header map whose resolved contents equal the source's, and makes the two
requests independent: overwriting the clone's header map or any of the
clone's value slices leaves the source's observable headers unchanged, and
overwriting the source's header map or any of the source's value slices
leaves the clone's observable headers unchanged. -/
theorem C8_clone_independence (h : Heap) (r : HRequest)
    (hwf : wfRequest h r) :
    (cloneRequest h r).2.methodF = r.methodF ∧
    (cloneRequest h r).2.urlF = r.urlF ∧
    (cloneRequest h r).2.bodyF = r.bodyF ∧
    (cloneRequest h r).2.headerRef ≠ r.headerRef ∧
    resolveHeaders (cloneRequest h r).1 (cloneRequest h r).2 =
      resolveHeaders h r ∧
    resolveHeaders (cloneRequest h r).1 r = resolveHeaders h r ∧
    (∀ v, resolveHeaders
      (writeHmap (cloneRequest h r).1 (cloneRequest h r).2.headerRef v) r =
        resolveHeaders h r) ∧
    (∀ b v, b ∈ ((cloneRequest h r).1.hmaps
        (cloneRequest h r).2.headerRef).map Prod.snd →
      resolveHeaders (writeSlice (cloneRequest h r).1 b v) r =
        resolveHeaders h r) ∧
    (∀ v, resolveHeaders (writeHmap (cloneRequest h r).1 r.headerRef v)
        (cloneRequest h r).2 =
      resolveHeaders (cloneRequest h r).1 (cloneRequest h r).2) ∧
    (∀ b v, b ∈ ((cloneRequest h r).1.hmaps r.headerRef).map Prod.snd →
      resolveHeaders (writeSlice (cloneRequest h r).1 b v)
          (cloneRequest h r).2 =
        resolveHeaders (cloneRequest h r).1 (cloneRequest h r).2) := by
  obtain ⟨href, hrefs⟩ := hwf
  have haddr : r.headerRef ≠ cloneAddr h r :=
    Nat.ne_of_lt (Nat.lt_of_lt_of_le href (cloneAddr_ge h r))
  have hsrcmap : (cloneRequest h r).1.hmaps r.headerRef = h.hmaps r.headerRef := by
    rw [cloneRequest_fst_hmaps, if_neg haddr]
  have hclonemap : (cloneRequest h r).1.hmaps (cloneAddr h r) =
      (copyHeaderSlices h (h.hmaps r.headerRef)).2 := by
    rw [cloneRequest_fst_hmaps, if_pos rfl]
  have hslices : ∀ e ∈ h.hmaps r.headerRef,
      (cloneRequest h r).1.slices e.2 = h.slices e.2 := by
    intro e he
    rw [cloneRequest_fst_slices]
    exact copyHeaderSlices_slices_lt _ h e.2 (hrefs e he)
  have hsrc : resolveHeaders (cloneRequest h r).1 r = resolveHeaders h r := by
    unfold resolveHeaders
    rw [hsrcmap]
    exact List.map_congr_left
      (fun e he => congrArg (Prod.mk e.1) (hslices e he))
  have hclone : resolveHeaders (cloneRequest h r).1 (cloneRequest h r).2 =
      resolveHeaders h r := by
    unfold resolveHeaders
    rw [cloneRequest_snd_headerRef, hclonemap, cloneRequest_fst_slices]
    exact copyHeaderSlices_resolved _ h hrefs
  have hclonerefs : ∀ b ∈ ((copyHeaderSlices h (h.hmaps r.headerRef)).2).map
      Prod.snd, h.next ≤ b := by
    intro b hb
    obtain ⟨e, he, hbe⟩ := List.mem_map.mp hb
    exact hbe ▸ (copyHeaderSlices_entry_refs _ h e he).1
  refine ⟨rfl, rfl, rfl, ?_, hclone, hsrc, ?_, ?_, ?_, ?_⟩
  · rw [cloneRequest_snd_headerRef]
    exact fun hh => haddr hh.symm
  · intro v
    unfold resolveHeaders
    have hm : (writeHmap (cloneRequest h r).1
        (cloneRequest h r).2.headerRef v).hmaps r.headerRef =
        h.hmaps r.headerRef := by
      rw [cloneRequest_snd_headerRef]
      show (if r.headerRef = cloneAddr h r then v
        else (cloneRequest h r).1.hmaps r.headerRef) = _
      rw [if_neg haddr, hsrcmap]
    rw [hm]
    exact List.map_congr_left
      (fun e he => congrArg (Prod.mk e.1) (hslices e he))
  · intro b v hb
    rw [cloneRequest_snd_headerRef, hclonemap] at hb
    have hble := hclonerefs b hb
    unfold resolveHeaders
    have hm : (writeSlice (cloneRequest h r).1 b v).hmaps r.headerRef =
        h.hmaps r.headerRef := hsrcmap
    rw [hm]
    refine List.map_congr_left ?_
    intro e he
    refine congrArg (Prod.mk e.1) ?_
    show (if e.2 = b then v else (cloneRequest h r).1.slices e.2) =
      h.slices e.2
    rw [if_neg (Nat.ne_of_lt (Nat.lt_of_lt_of_le (hrefs e he) hble))]
    exact hslices e he
  · intro v
    unfold resolveHeaders
    rw [cloneRequest_snd_headerRef]
    have hm : (writeHmap (cloneRequest h r).1 r.headerRef v).hmaps
        (cloneAddr h r) = (cloneRequest h r).1.hmaps (cloneAddr h r) := by
      show (if cloneAddr h r = r.headerRef then v
        else (cloneRequest h r).1.hmaps (cloneAddr h r)) = _
      rw [if_neg (fun hh => haddr hh.symm)]
    rw [hm]
    rfl
  · intro b v hb
    rw [hsrcmap] at hb
    obtain ⟨e, he, hbe⟩ := List.mem_map.mp hb
    have hblt : b < h.next := hbe ▸ hrefs e he
    unfold resolveHeaders
    rw [cloneRequest_snd_headerRef]
    have hm : (writeSlice (cloneRequest h r).1 b v).hmaps (cloneAddr h r) =
        (cloneRequest h r).1.hmaps (cloneAddr h r) := rfl
    rw [hm, hclonemap]
    refine List.map_congr_left ?_
    intro e2 he2
    have hge := (copyHeaderSlices_entry_refs _ h e2 he2).1
    refine congrArg (Prod.mk e2.1) ?_
    show (if e2.2 = b then v else (cloneRequest h r).1.slices e2.2) =
      (cloneRequest h r).1.slices e2.2
    rw [if_neg (fun hh => Nat.not_lt.mpr hge (by rw [hh]; exact hblt))]

/-- A concrete two-cell heap for instantiating the clone theorem: the
request's header map lives at address 0 and holds one entry whose value slice
lives at address 1. -/
def sampleHeap : Heap :=
  { hmaps := fun n => if n = 0 then [("Content-Type", 1)] else [],
    slices := fun n => if n = 1 then ["application/json"] else [],
    next := 2 }

/-- The request living in `sampleHeap`. -/
def sampleHRequest : HRequest :=
  { methodF := "GET", urlF := "https://jira.example.com/", bodyF := "",
    headerRef := 0 }

/-- C8 witness: the clone-independence theorem at the concrete one-header
request. -/
theorem C8_witness :
    (cloneRequest sampleHeap sampleHRequest).2.methodF =
      sampleHRequest.methodF ∧
    (cloneRequest sampleHeap sampleHRequest).2.urlF = sampleHRequest.urlF ∧
    (cloneRequest sampleHeap sampleHRequest).2.bodyF = sampleHRequest.bodyF ∧
    (cloneRequest sampleHeap sampleHRequest).2.headerRef ≠
      sampleHRequest.headerRef ∧
    resolveHeaders (cloneRequest sampleHeap sampleHRequest).1
        (cloneRequest sampleHeap sampleHRequest).2 =
      resolveHeaders sampleHeap sampleHRequest ∧
    resolveHeaders (cloneRequest sampleHeap sampleHRequest).1 sampleHRequest =
      resolveHeaders sampleHeap sampleHRequest ∧
    (∀ v, resolveHeaders
      (writeHmap (cloneRequest sampleHeap sampleHRequest).1
        (cloneRequest sampleHeap sampleHRequest).2.headerRef v)
        sampleHRequest =
      resolveHeaders sampleHeap sampleHRequest) ∧
    (∀ b v, b ∈ ((cloneRequest sampleHeap sampleHRequest).1.hmaps
        (cloneRequest sampleHeap sampleHRequest).2.headerRef).map Prod.snd →
      resolveHeaders (writeSlice (cloneRequest sampleHeap sampleHRequest).1
        b v) sampleHRequest =
      resolveHeaders sampleHeap sampleHRequest) ∧
    (∀ v, resolveHeaders (writeHmap (cloneRequest sampleHeap sampleHRequest).1
        sampleHRequest.headerRef v)
        (cloneRequest sampleHeap sampleHRequest).2 =
      resolveHeaders (cloneRequest sampleHeap sampleHRequest).1
        (cloneRequest sampleHeap sampleHRequest).2) ∧
    (∀ b v, b ∈ ((cloneRequest sampleHeap sampleHRequest).1.hmaps
        sampleHRequest.headerRef).map Prod.snd →
      resolveHeaders (writeSlice (cloneRequest sampleHeap sampleHRequest).1
          b v) (cloneRequest sampleHeap sampleHRequest).2 =
        resolveHeaders (cloneRequest sampleHeap sampleHRequest).1
          (cloneRequest sampleHeap sampleHRequest).2) :=
  C8_clone_independence sampleHeap sampleHRequest ⟨by decide, by decide⟩

/-- Go `strings.HasSuffix(s, "/")` for the one-character suffix: the last
character is `/`. -/
def hasSlashSuffix (s : String) : Bool :=
  s.data.getLast? == some '/'

/-- The base-URL normalization in `NewClient`: a trailing slash is appended
when the base URL does not already end in one. -/
def normalizeBaseURL (baseURL : String) : String :=
  if hasSlashSuffix baseURL then baseURL else baseURL ++ "/"

/-- The relative-path preparation in `NewRawRequest`:
`rel.Path = strings.TrimLeft(rel.Path, "/")`. -/
def prepareRelPath (p : String) : String :=
  trimLeftChar '/' p

/-- URL resolution in `NewRawRequest`: `resolve` stands for
`net/url.(*URL).ResolveReference`; the relative path is stripped of leading
slashes before resolution against the base. -/
def resolveAgainstBase (resolve : String → String → String)
    (base relPath : String) : String :=
  resolve base (prepareRelPath relPath)

theorem hasSlashSuffix_append (s : String) :
    hasSlashSuffix (s ++ "/") = true := by
  unfold hasSlashSuffix
  rw [String.data_append]
  show ((s.data ++ ['/']).getLast? == some '/') = true
  rw [List.getLast?_concat]
  rfl

theorem prepareRelPath_slash (p : String) :
    prepareRelPath ("/" ++ p) = prepareRelPath p := by
  unfold prepareRelPath trimLeftChar
  congr 1

/-- C9: `NewClient` appends a trailing slash to a base URL lacking one — the
normalized base URL always ends in a slash — and building a request from a
relative path with a leading slash resolves to exactly the same absolute URL
as without it, because `NewRawRequest` strips leading slashes from the
relative path before resolving it against the base URL. -/
theorem C9_base_url_resolution (baseURL p : String)
    (resolve : String → String → String)
    (hnos : hasSlashSuffix baseURL = false) :
    normalizeBaseURL baseURL = baseURL ++ "/" ∧
    hasSlashSuffix (normalizeBaseURL baseURL) = true ∧
    resolveAgainstBase resolve (normalizeBaseURL baseURL) ("/" ++ p) =
      resolveAgainstBase resolve (normalizeBaseURL baseURL) p := by
  refine ⟨?_, ?_, ?_⟩
  · simp [normalizeBaseURL, hnos]
  · simp only [normalizeBaseURL, hnos, if_false, Bool.false_eq_true]
    exact hasSlashSuffix_append baseURL
  · unfold resolveAgainstBase
    rw [prepareRelPath_slash]

/-- C9 witness: the theorem at a concrete base URL without a trailing slash
and a concrete relative path, with string concatenation as the resolver. -/
theorem C9_witness :
    normalizeBaseURL "https://jira.example.com" =
      "https://jira.example.com" ++ "/" ∧
    hasSlashSuffix (normalizeBaseURL "https://jira.example.com") = true ∧
    resolveAgainstBase (fun b r => b ++ r)
        (normalizeBaseURL "https://jira.example.com")
        ("/" ++ "rest/api/2/issue") =
      resolveAgainstBase (fun b r => b ++ r)
        (normalizeBaseURL "https://jira.example.com") "rest/api/2/issue" :=
  C9_base_url_resolution "https://jira.example.com" "rest/api/2/issue"
    (fun b r => b ++ r) (by decide)

end Jira
